import Mathlib

/-!
Verification of the dataset curation and balancing pipeline.

Shallow embedding of the Python sources:
- `train_validation_test_splitter.py` (stratified train/validation/test splitting)
- `create_dedup.py` (content-hash deduplication)
- `dataset_validation_qa.py` / `dataset_validation_qa_system.py` (validation scoring)
- `production_dataset_generator.py` (pipeline stage fallbacks)

Modelling conventions:
- Python floats become `ℚ`; the literals involved (0.7, 0.15, 0.9, ...) are
  translated to exact rationals.
- `random.shuffle` becomes an abstract shuffle function; theorems that depend
  on shuffling hypothesise that each shuffle call returns a permutation of its
  input.  Distinct call sites receive distinct indices of a family
  `sh : ℕ → List _ → List _`.
- Python `dict` iteration order is insertion order (Python ≥ 3.7); grouping by
  key is embedded as an ordered association list (`groupByKey`).
- The md5 digest used as a dedup bucket key is modelled by the normalized text
  itself: only equality of digests is consumed by the pipeline, and the model
  keeps the digest an injective function of the normalized content.
-/

namespace Curation

/-- A dataset record.  Fields mirror the attributes the Python code reads via
`getattr`; `none` models an absent attribute (which Python distinguishes from
an attribute set to a default). -/
structure DataItem where
  item_id : String
  content : String
  category : Option String
  quality_score : Option ℚ
  clinical_accuracy : Option ℚ
  conversation_quality : Option ℚ
deriving DecidableEq, Repr, Inhabited

/-! ### Ordered grouping (model of Python `defaultdict(list)` insertion-order grouping) -/

/-- Append `x` to the bucket of key `k`, creating the bucket at the end if the
key is new.  This is exactly how `hash_to_conversations[content_hash].append(conv)`
and the splitter's `category_groups[name].append(item)` behave on a Python dict. -/
def insertGrouped {κ α : Type} [DecidableEq κ] (k : κ) (x : α) :
    List (κ × List α) → List (κ × List α)
  | [] => [(k, [x])]
  | (k', xs) :: rest =>
    if k' = k then (k', xs ++ [x]) :: rest
    else (k', xs) :: insertGrouped k x rest

/-- Group a list by a key, preserving first-seen key order and, inside each
bucket, the original element order. -/
def groupByKey {κ α : Type} [DecidableEq κ] (key : α → κ) (l : List α) :
    List (κ × List α) :=
  l.foldl (fun acc x => insertGrouped (key x) x acc) []

theorem flatten_insertGrouped {κ α : Type} [DecidableEq κ] (k : κ) (x : α)
    (g : List (κ × List α)) :
    (((insertGrouped k x g).map Prod.snd).flatten).Perm
      (x :: (g.map Prod.snd).flatten) := by
  induction g with
  | nil => simp [insertGrouped]
  | cons p rest ih =>
    obtain ⟨k', xs⟩ := p
    by_cases h : k' = k
    · simp only [insertGrouped, if_pos h, List.map_cons, List.flatten_cons]
      have hx : (xs ++ [x]) ++ (rest.map Prod.snd).flatten
          = xs ++ (x :: (rest.map Prod.snd).flatten) := by simp
      rw [hx]
      exact List.perm_middle
    · simp only [insertGrouped, if_neg h, List.map_cons, List.flatten_cons]
      exact (ih.append_left xs).trans List.perm_middle

theorem flatten_groupByKey_aux {κ α : Type} [DecidableEq κ] (key : α → κ) :
    ∀ (l : List α) (acc : List (κ × List α)),
      (((l.foldl (fun acc x => insertGrouped (key x) x acc) acc).map Prod.snd).flatten).Perm
        ((acc.map Prod.snd).flatten ++ l) := by
  intro l
  induction l with
  | nil => intro acc; simp
  | cons x l ih =>
    intro acc
    refine ((ih (insertGrouped (key x) x acc)).trans ?_)
    refine (((flatten_insertGrouped (key x) x acc).append_right l).trans ?_)
    exact List.perm_middle.symm

/-- The buckets of `groupByKey` jointly form a permutation of the input. -/
theorem flatten_groupByKey {κ α : Type} [DecidableEq κ] (key : α → κ) (l : List α) :
    (((groupByKey key l).map Prod.snd).flatten).Perm l := by
  simpa [groupByKey] using flatten_groupByKey_aux key l []

/-! ### Stratified splitter (`train_validation_test_splitter.py`) -/

/-- Quality level buckets used for stratification (`QualityLevel` enum). -/
inductive QualityLevel
  | HIGH
  | MEDIUM_HIGH
  | MEDIUM
  | MEDIUM_LOW
  | LOW
deriving DecidableEq, Repr

/-- `SplitConfig`: the fields the quality-aware split path reads.  The ratio
validation in `__post_init__` (ratios must sum to 1) is recorded by theorems
that need it, not by the structure. -/
structure SplitConfig where
  train_ratio : ℚ := 7/10
  validation_ratio : ℚ := 3/20
  test_ratio : ℚ := 3/20
  min_items_per_split : ℕ := 10
deriving DecidableEq, Repr

/-- Python `int(...)` on a rational value: truncation toward zero. -/
def pyInt (q : ℚ) : ℤ := if 0 ≤ q then ⌊q⌋ else -⌊-q⌋

/-- `_get_quality_level`: bucket a quality score. -/
def get_quality_level (quality_score : ℚ) : QualityLevel :=
  if quality_score ≥ 9/10 then .HIGH
  else if quality_score ≥ 4/5 then .MEDIUM_HIGH
  else if quality_score ≥ 7/10 then .MEDIUM
  else if quality_score ≥ 3/5 then .MEDIUM_LOW
  else .LOW

/-- `_group_by_category_and_quality`: strata keyed by
`(category name, quality level)`.  `getattr(item, "category", "unknown")`
becomes `Option.getD "unknown"` and `getattr(item, "quality_score", 0.8)`
becomes `Option.getD (4/5)`.  (The category-object branch reading
`category.category_name` is not modelled: `DataItem.category` is already the
resolved string when present.) -/
def group_by_category_and_quality (dataset : List DataItem) :
    List ((String × QualityLevel) × List DataItem) :=
  groupByKey
    (fun item => (item.category.getD "unknown",
                  get_quality_level (item.quality_score.getD (4/5))))
    dataset

/-- The train/validation cut sizes computed inside `_split_category_items`:
`max(1, int(total_size * ratio))` for train and validation, then the
fallback reassignment when those two consume the whole group. -/
def split_sizes (config : SplitConfig) (total_size : ℕ) : ℕ × ℕ :=
  let train_size := max 1 (pyInt ((total_size : ℚ) * config.train_ratio)).toNat
  let validation_size := max 1 (pyInt ((total_size : ℚ) * config.validation_ratio)).toNat
  if total_size ≤ train_size + validation_size then
    if 3 ≤ total_size then (total_size - 2, 1) else (total_size, 0)
  else (train_size, validation_size)

/-- `_split_category_items`: shuffle a stratum and slice it into
train/validation/test.  `shuffle` stands for this call's `random.shuffle`. -/
def split_category_items (shuffle : List DataItem → List DataItem)
    (config : SplitConfig) (items : List DataItem) :
    List DataItem × List DataItem × List DataItem :=
  let shuffled := shuffle items
  let ts := split_sizes config items.length
  (shuffled.take ts.1,
   (shuffled.drop ts.1).take ts.2,
   shuffled.drop (ts.1 + ts.2))

/-- `DatasetSplit`: the three result lists (metrics and timestamps are
reporting-only and not modelled). -/
structure DatasetSplit where
  train_data : List DataItem
  validation_data : List DataItem
  test_data : List DataItem
deriving DecidableEq, Repr

/-- The per-stratum loop of `_quality_aware_split`: strata with at least 3
items are split by `_split_category_items`, smaller strata go wholly to the
training set.  `n` indexes the next shuffle invocation. -/
def qa_split_groups (sh : ℕ → List DataItem → List DataItem) (config : SplitConfig) :
    ℕ → List ((String × QualityLevel) × List DataItem) →
      List DataItem × List DataItem × List DataItem
  | _, [] => ([], [], [])
  | n, g :: rest =>
    if 3 ≤ g.2.length then
      let s := split_category_items (sh n) config g.2
      let r := qa_split_groups sh config (n + 1) rest
      (s.1 ++ r.1, s.2.1 ++ r.2.1, s.2.2 ++ r.2.2)
    else
      let r := qa_split_groups sh config n rest
      (g.2 ++ r.1, r.2.1, r.2.2)

/-- `_quality_aware_split`: group into strata, split each, then shuffle the
three final lists.  Shuffle indices 0,1,2 are the three final shuffles and
indices from 3 on are the per-stratum shuffles. -/
def quality_aware_split (sh : ℕ → List DataItem → List DataItem)
    (config : SplitConfig) (dataset : List DataItem) : DatasetSplit :=
  let groups := group_by_category_and_quality dataset
  let r := qa_split_groups sh config 3 groups
  { train_data := sh 0 r.1
    validation_data := sh 1 r.2.1
    test_data := sh 2 r.2.2 }

/-- `split_dataset` under the default `QUALITY_AWARE` strategy: the
`ValueError` raised for datasets smaller than `3 * min_items_per_split` is
modelled as `none`. -/
def split_dataset (sh : ℕ → List DataItem → List DataItem)
    (config : SplitConfig) (dataset : List DataItem) : Option DatasetSplit :=
  if dataset.length < 3 * config.min_items_per_split then none
  else some (quality_aware_split sh config dataset)

theorem take_append_take_drop {α : Type} (l : List α) (t v : ℕ) :
    l.take t ++ ((l.drop t).take v ++ l.drop (t + v)) = l := by
  rw [← List.drop_drop, List.take_append_drop, List.take_append_drop]

theorem split_category_items_append (shuffle : List DataItem → List DataItem)
    (config : SplitConfig) (items : List DataItem) :
    (split_category_items shuffle config items).1
      ++ ((split_category_items shuffle config items).2.1
          ++ (split_category_items shuffle config items).2.2)
      = shuffle items := by
  simp only [split_category_items]
  exact take_append_take_drop _ _ _

theorem split_category_items_coe (shuffle : List DataItem → List DataItem)
    (config : SplitConfig) (items : List DataItem)
    (hsh : (shuffle items).Perm items) :
    ((split_category_items shuffle config items).1 : Multiset DataItem)
      + ((split_category_items shuffle config items).2.1 : Multiset DataItem)
      + ((split_category_items shuffle config items).2.2 : Multiset DataItem)
      = (items : Multiset DataItem) := by
  rw [Multiset.coe_add, Multiset.coe_add, Multiset.coe_eq_coe, List.append_assoc,
    split_category_items_append]
  exact hsh

theorem qa_split_groups_coe (sh : ℕ → List DataItem → List DataItem)
    (config : SplitConfig) (hsh : ∀ n l, (sh n l).Perm l) :
    ∀ (n : ℕ) (groups : List ((String × QualityLevel) × List DataItem)),
      ((qa_split_groups sh config n groups).1 : Multiset DataItem)
        + ((qa_split_groups sh config n groups).2.1 : Multiset DataItem)
        + ((qa_split_groups sh config n groups).2.2 : Multiset DataItem)
      = ((groups.map Prod.snd).flatten : Multiset DataItem) := by
  intro n groups
  induction groups generalizing n with
  | nil => simp [qa_split_groups]
  | cons g rest ih =>
    by_cases h : 3 ≤ g.2.length
    · have hs := split_category_items_coe (sh n) config g.2 (hsh n g.2)
      have hr := ih (n + 1)
      simp only [qa_split_groups, if_pos h, List.map_cons, List.flatten_cons,
        ← Multiset.coe_add] at hs hr ⊢
      rw [← hs, ← hr]
      abel
    · have hr := ih n
      simp only [qa_split_groups, if_neg h, List.map_cons, List.flatten_cons,
        ← Multiset.coe_add] at hr ⊢
      rw [← hr]
      abel

theorem quality_aware_split_coe (sh : ℕ → List DataItem → List DataItem)
    (config : SplitConfig) (dataset : List DataItem) (hsh : ∀ n l, (sh n l).Perm l) :
    ((quality_aware_split sh config dataset).train_data : Multiset DataItem)
      + ((quality_aware_split sh config dataset).validation_data : Multiset DataItem)
      + ((quality_aware_split sh config dataset).test_data : Multiset DataItem)
      = (dataset : Multiset DataItem) := by
  simp only [quality_aware_split]
  rw [Multiset.coe_eq_coe.2 (hsh 0 _), Multiset.coe_eq_coe.2 (hsh 1 _),
    Multiset.coe_eq_coe.2 (hsh 2 _)]
  rw [qa_split_groups_coe sh config hsh 3 (group_by_category_and_quality dataset)]
  exact Multiset.coe_eq_coe.2 (flatten_groupByKey _ dataset)

/-- Slice lengths of `_split_category_items` in terms of the cut sizes. -/
theorem split_category_items_lengths (shuffle : List DataItem → List DataItem)
    (config : SplitConfig) (items : List DataItem)
    (hlen : (shuffle items).length = items.length) :
    (split_category_items shuffle config items).1.length
        = min (split_sizes config items.length).1 items.length
      ∧ (split_category_items shuffle config items).2.1.length
        = min (split_sizes config items.length).2
            (items.length - (split_sizes config items.length).1)
      ∧ (split_category_items shuffle config items).2.2.length
        = items.length
            - ((split_sizes config items.length).1 + (split_sizes config items.length).2) := by
  refine ⟨?_, ?_, ?_⟩ <;>
    simp [split_category_items, List.length_take, List.length_drop, hlen]

/-- The cut sizes of a group of at least 3 items leave room for all three
slices. -/
theorem split_sizes_ge_three (config : SplitConfig) (n : ℕ) (h3 : 3 ≤ n) :
    1 ≤ (split_sizes config n).1 ∧ 1 ≤ (split_sizes config n).2
      ∧ (split_sizes config n).1 + (split_sizes config n).2 < n := by
  simp only [split_sizes]
  have h1t : 1 ≤ max 1 (pyInt ((n : ℚ) * config.train_ratio)).toNat := le_max_left _ _
  have h1v : 1 ≤ max 1 (pyInt ((n : ℚ) * config.validation_ratio)).toNat := le_max_left _ _
  by_cases hc : n ≤ max 1 (pyInt ((n : ℚ) * config.train_ratio)).toNat
      + max 1 (pyInt ((n : ℚ) * config.validation_ratio)).toNat
  · rw [if_pos hc, if_pos h3]
    dsimp only
    omega
  · rw [if_neg hc]
    dsimp only
    omega

/-- Validation and test contributions of `qa_split_groups` are nonempty as soon
as some stratum has at least 3 items. -/
theorem qa_split_groups_ne_nil (sh : ℕ → List DataItem → List DataItem)
    (config : SplitConfig) (hsh : ∀ n l, (sh n l).length = l.length) :
    ∀ (n : ℕ) (groups : List ((String × QualityLevel) × List DataItem)),
      (∃ g ∈ groups, 3 ≤ g.2.length) →
      (qa_split_groups sh config n groups).2.1 ≠ []
        ∧ (qa_split_groups sh config n groups).2.2 ≠ [] := by
  intro n groups
  induction groups generalizing n with
  | nil => rintro ⟨g, hg, -⟩; exact absurd hg (List.not_mem_nil g)
  | cons g rest ih =>
    rintro ⟨g', hg', h3'⟩
    by_cases h : 3 ≤ g.2.length
    · have hb := split_sizes_ge_three config g.2.length h
      have hl := split_category_items_lengths (sh n) config g.2 (hsh n g.2)
      have hval : (split_category_items (sh n) config g.2).2.1 ≠ [] := by
        rw [← List.length_pos_iff_ne_nil, hl.2.1]
        omega
      have htest : (split_category_items (sh n) config g.2).2.2 ≠ [] := by
        rw [← List.length_pos_iff_ne_nil, hl.2.2]
        omega
      simp only [qa_split_groups, if_pos h]
      constructor
      · simp only [ne_eq, List.append_eq_nil]
        exact fun hcon => hval hcon.1
      · simp only [ne_eq, List.append_eq_nil]
        exact fun hcon => htest hcon.1
    · rcases List.mem_cons.1 hg' with hEq | hmem
      · exact absurd (hEq ▸ h3') h
      · have := ih n ⟨g', hmem, h3'⟩
        simp only [qa_split_groups, if_neg h]
        exact this

/-- C1: For every input dataset accepted by the splitter (at least
`3 * min_items_per_split` items), the train, validation, and test lists
returned by `split_dataset` form an exact partition of the input pool: their
concatenation is a permutation of the input (every record occurrence appears
in exactly one of the three lists), and the sizes add up to the input size. -/
theorem split_dataset_partition (sh : ℕ → List DataItem → List DataItem)
    (hsh : ∀ n l, (sh n l).Perm l) (config : SplitConfig)
    (dataset : List DataItem) (res : DatasetSplit)
    (hres : split_dataset sh config dataset = some res) :
    (res.train_data ++ res.validation_data ++ res.test_data).Perm dataset ∧
      res.train_data.length + res.validation_data.length + res.test_data.length
        = dataset.length := by
  have hq : quality_aware_split sh config dataset = res := by
    by_cases hlen : dataset.length < 3 * config.min_items_per_split
    · simp [split_dataset, hlen] at hres
    · simpa [split_dataset, hlen] using hres
  have hcoe := quality_aware_split_coe sh config dataset hsh
  rw [hq] at hcoe
  have hperm : (res.train_data ++ res.validation_data ++ res.test_data).Perm dataset := by
    rw [← Multiset.coe_eq_coe]
    simp only [← Multiset.coe_add]
    exact hcoe
  refine ⟨hperm, ?_⟩
  have := hperm.length_eq
  simp only [List.length_append] at this
  omega

def wItem (i : String) : DataItem := ⟨i, i, some "a", none, none, none⟩

def wData : List DataItem := [wItem "r1", wItem "r2", wItem "r3"]

def wConfig : SplitConfig := { min_items_per_split := 1 }

def wSh : ℕ → List DataItem → List DataItem := fun _ l => l

def wRes : DatasetSplit := ⟨[wItem "r1"], [wItem "r2"], [wItem "r3"]⟩

theorem split_dataset_partition_witness :
    (wRes.train_data ++ wRes.validation_data ++ wRes.test_data).Perm wData ∧
      wRes.train_data.length + wRes.validation_data.length + wRes.test_data.length
        = wData.length :=
  split_dataset_partition wSh (fun _ l => List.Perm.refl l) wConfig wData wRes (by
    norm_num [split_dataset, quality_aware_split, group_by_category_and_quality,
      groupByKey, insertGrouped, qa_split_groups, split_category_items, split_sizes,
      pyInt, get_quality_level, wData, wItem, wConfig, wSh, wRes]
    decide)

def c7Items : List DataItem :=
  [wItem "r1", wItem "r2", wItem "r3", wItem "r4", wItem "r5"]

/-- C7 counterexample: on a stratum of 5 items with the default ratios the code
produces a train slice of 3 items, but `round(5 * 0.7) = 4`: the cut is
`max(1, int(n * ratio))` (truncation), not `round(n * ratio)`.  (At this input
CPython's float arithmetic gives `int(5*0.7) = 3` and `round(5*0.7) = 4` as
well, so the rational model agrees with the float behaviour here.) -/
theorem split_round_cut_counterexample :
    ¬ ((split_category_items (fun l => l) {} c7Items).1.length
        = (round ((c7Items.length : ℚ) * SplitConfig.train_ratio {})).toNat) := by
  have h1 : (split_category_items (fun l => l) {} c7Items).1.length = 3 := by
    norm_num [split_category_items, split_sizes, pyInt, c7Items, wItem,
      List.length_take]
    decide
  have h2 : (round ((c7Items.length : ℚ) * SplitConfig.train_ratio {})).toNat = 4 := by
    norm_num [round_eq, c7Items, wItem]
    decide
  rw [h1, h2]
  omega

/-- C7 (amended): per stratum, the code cuts the shuffled stratum at
`max(1, trunc(n * train_ratio))` and `max(1, trunc(n * val_ratio))` with the
remainder going to test, except when those two cuts would consume the whole
stratum, in which case a stratum of at least 3 items is cut as
`(n - 2, 1, 1)` and a smaller one keeps everything in train; and in the
quality-aware split every stratum with fewer than 3 items is not split at
all — all of its items go to the train set and none to validation or test. -/
theorem split_cut_and_small_strata :
    (∀ (shuffle : List DataItem → List DataItem) (config : SplitConfig)
        (items : List DataItem), (shuffle items).length = items.length →
      ((split_category_items shuffle config items).1.length,
       (split_category_items shuffle config items).2.1.length,
       (split_category_items shuffle config items).2.2.length)
      = (if items.length ≤ max 1 (pyInt ((items.length : ℚ) * config.train_ratio)).toNat
              + max 1 (pyInt ((items.length : ℚ) * config.validation_ratio)).toNat then
           if 3 ≤ items.length then (items.length - 2, 1, 1) else (items.length, 0, 0)
         else
           (max 1 (pyInt ((items.length : ℚ) * config.train_ratio)).toNat,
            max 1 (pyInt ((items.length : ℚ) * config.validation_ratio)).toNat,
            items.length
              - (max 1 (pyInt ((items.length : ℚ) * config.train_ratio)).toNat
                 + max 1 (pyInt ((items.length : ℚ) * config.validation_ratio)).toNat)))) ∧
    (∀ (sh : ℕ → List DataItem → List DataItem) (config : SplitConfig) (n : ℕ)
        (g : (String × QualityLevel) × List DataItem)
        (rest : List ((String × QualityLevel) × List DataItem)),
      g.2.length < 3 →
      qa_split_groups sh config n (g :: rest)
        = (g.2 ++ (qa_split_groups sh config n rest).1,
           (qa_split_groups sh config n rest).2.1,
           (qa_split_groups sh config n rest).2.2)) := by
  constructor
  · intro shuffle config items hlen
    have hl := split_category_items_lengths shuffle config items hlen
    have hdef : split_sizes config items.length
        = if items.length ≤ max 1 (pyInt ((items.length : ℚ) * config.train_ratio)).toNat
              + max 1 (pyInt ((items.length : ℚ) * config.validation_ratio)).toNat then
            if 3 ≤ items.length then (items.length - 2, 1) else (items.length, 0)
          else
            (max 1 (pyInt ((items.length : ℚ) * config.train_ratio)).toNat,
             max 1 (pyInt ((items.length : ℚ) * config.validation_ratio)).toNat) := rfl
    rw [hl.1, hl.2.1, hl.2.2, hdef]
    have h1t : 1 ≤ max 1 (pyInt ((items.length : ℚ) * config.train_ratio)).toNat :=
      le_max_left _ _
    have h1v : 1 ≤ max 1 (pyInt ((items.length : ℚ) * config.validation_ratio)).toNat :=
      le_max_left _ _
    by_cases hc : items.length
        ≤ max 1 (pyInt ((items.length : ℚ) * config.train_ratio)).toNat
          + max 1 (pyInt ((items.length : ℚ) * config.validation_ratio)).toNat
    · simp only [if_pos hc]
      by_cases h3 : 3 ≤ items.length
      · simp only [if_pos h3, Prod.mk.injEq, and_true, true_and]
        omega
      · simp only [if_neg h3, Prod.mk.injEq, and_true, true_and]
        omega
    · simp only [if_neg hc, Prod.mk.injEq, and_true, true_and]
      omega
  · intro sh config n g rest hsmall
    simp only [qa_split_groups, if_neg (by omega : ¬ 3 ≤ g.2.length)]

theorem split_cut_and_small_strata_witness :
    ((split_category_items (fun l => l) {} c7Items).1.length,
     (split_category_items (fun l => l) {} c7Items).2.1.length,
     (split_category_items (fun l => l) {} c7Items).2.2.length) = (3, 1, 1) ∧
    qa_split_groups (fun _ l => l) {} 0 [(("a", QualityLevel.MEDIUM_HIGH), [wItem "r1"])]
      = ([wItem "r1"], [], []) := by
  constructor
  · refine (split_cut_and_small_strata.1 (fun l => l) {} c7Items rfl).trans ?_
    norm_num [pyInt, c7Items, wItem]
    all_goals omega
  · exact (split_cut_and_small_strata.2 (fun _ l => l) {} 0
      (("a", QualityLevel.MEDIUM_HIGH), [wItem "r1"]) [] (by simp)).trans (by rfl)

/-- C10: every stratum of at least 3 items yields three non-empty slices
(`_split_category_items` reassigns `(n-2, 1)` when the computed sizes would
consume the stratum), so a quality-aware split of a dataset with at least one
stratum of size 3 or more has non-empty validation and test sets. -/
theorem split_min_three_nonempty :
    (∀ (shuffle : List DataItem → List DataItem) (config : SplitConfig)
        (items : List DataItem), (shuffle items).length = items.length →
      3 ≤ items.length →
      (split_category_items shuffle config items).1 ≠ []
        ∧ (split_category_items shuffle config items).2.1 ≠ []
        ∧ (split_category_items shuffle config items).2.2 ≠ []) ∧
    (∀ (sh : ℕ → List DataItem → List DataItem) (config : SplitConfig)
        (dataset : List DataItem), (∀ n l, (sh n l).length = l.length) →
      (∃ g ∈ group_by_category_and_quality dataset, 3 ≤ g.2.length) →
      (quality_aware_split sh config dataset).validation_data ≠ []
        ∧ (quality_aware_split sh config dataset).test_data ≠ []) := by
  constructor
  · intro shuffle config items hlen h3
    have hl := split_category_items_lengths shuffle config items hlen
    have hb := split_sizes_ge_three config items.length h3
    refine ⟨?_, ?_, ?_⟩ <;> rw [← List.length_pos_iff_ne_nil]
    · rw [hl.1]; omega
    · rw [hl.2.1]; omega
    · rw [hl.2.2]; omega
  · intro sh config dataset hsh hex
    have h := qa_split_groups_ne_nil sh config hsh 3
      (group_by_category_and_quality dataset) hex
    constructor
    · simp only [quality_aware_split, ne_eq, ← List.length_pos_iff_ne_nil, hsh 1]
      rw [List.length_pos_iff_ne_nil]
      exact h.1
    · simp only [quality_aware_split, ne_eq, ← List.length_pos_iff_ne_nil, hsh 2]
      rw [List.length_pos_iff_ne_nil]
      exact h.2

theorem split_min_three_nonempty_witness :
    ((split_category_items (fun l => l) {} c7Items).1 ≠ []
      ∧ (split_category_items (fun l => l) {} c7Items).2.1 ≠ []
      ∧ (split_category_items (fun l => l) {} c7Items).2.2 ≠ []) ∧
    ((quality_aware_split wSh wConfig wData).validation_data ≠ []
      ∧ (quality_aware_split wSh wConfig wData).test_data ≠ []) :=
 by
  constructor
  · exact split_min_three_nonempty.1 (fun l => l) {} c7Items rfl (by simp [c7Items])
  · refine split_min_three_nonempty.2 wSh wConfig wData (fun _ _ => rfl) ?_
    have hg : group_by_category_and_quality wData
        = [(("a", QualityLevel.MEDIUM_HIGH), wData)] := by
      norm_num [group_by_category_and_quality, groupByKey, insertGrouped,
        get_quality_level, wData, wItem]
    exact ⟨(("a", QualityLevel.MEDIUM_HIGH), wData),
      by rw [hg]; exact List.mem_singleton.2 rfl, by simp [wData]⟩

/-! ### Deduplication (`create_dedup.py`) -/

/-- Character class of the regex `\w` (ASCII view; the model restricts the
Unicode classes to their ASCII behaviour, which covers the pipeline's use). -/
def isWordChar (c : Char) : Bool := c.isAlphanum || c = '_'

/-- Character class of the regex `\s`. -/
def isSpaceChar (c : Char) : Bool :=
  c = ' ' || c = '\t' || c = '\n' || c = '\r' || c = '\x0b' || c = '\x0c'

/-- The substitution `re.sub(r"\s+", " ", ·)`: each maximal whitespace run is
replaced by a single space.  The boolean records whether the previous character
was whitespace. -/
def collapseSpaceRuns : Bool → List Char → List Char
  | _, [] => []
  | prevSpace, c :: cs =>
    if isSpaceChar c then
      if prevSpace then collapseSpaceRuns true cs
      else ' ' :: collapseSpaceRuns true cs
    else c :: collapseSpaceRuns false cs

/-- Python `str.strip()`: remove leading and trailing whitespace. -/
def stripChars (cs : List Char) : List Char :=
  ((cs.dropWhile isSpaceChar).reverse.dropWhile isSpaceChar).reverse

/-- `TextNormalizer.normalize_text`: lower-case unless `case_sensitive`,
remove `[^\w\s]` when `ignore_punctuation`, collapse whitespace runs, strip. -/
def normalize_text (text : String) (case_sensitive : Bool)
    (ignore_punctuation : Bool) : String :=
  let cs := text.data
  let cs := if case_sensitive then cs else cs.map Char.toLower
  let cs := if ignore_punctuation then
      cs.filter (fun c => isWordChar c || isSpaceChar c)
    else cs
  String.mk (stripChars (collapseSpaceRuns false cs))

/-- `TextNormalizer.create_content_hash`: md5 of the case-insensitive,
punctuation-stripped normalization.  The digest is modelled by the normalized
text itself — an injective stand-in, since the pipeline only compares digests
for equality. -/
def create_content_hash (text : String) : String := normalize_text text false true

/-- A conversation: an id and the `content` strings of its messages (the only
message field the deduplicator reads). -/
structure Conversation where
  id : String
  messages : List String
deriving DecidableEq, Repr, Inhabited

/-- `DeduplicationConfig`: the fields the exact-duplicate pass reads. -/
structure DeduplicationConfig where
  case_sensitive : Bool := false
  ignore_punctuation : Bool := true
  min_conversation_length : ℕ := 2
deriving DecidableEq, Repr

inductive SimilarityMetric
  | EXACT_MATCH
  | JACCARD
  | COSINE
  | LEVENSHTEIN
  | SEMANTIC
  | STRUCTURAL
  | CONTENT_HASH
deriving DecidableEq, Repr

inductive DuplicateType
  | EXACT_DUPLICATE
  | NEAR_DUPLICATE
  | SEMANTIC_DUPLICATE
  | STRUCTURAL_DUPLICATE
  | CONTENT_DUPLICATE
deriving DecidableEq, Repr

structure SimilarityResult where
  item1_id : String
  item2_id : String
  similarity_score : ℚ
  metric : SimilarityMetric
  duplicate_type : Option DuplicateType
deriving DecidableEq, Repr

/-- `DeduplicationResult` (the wall-clock `processing_time` and the unused
`similarity_distribution` are not modelled). -/
structure DeduplicationResult where
  original_count : ℕ
  duplicate_count : ℕ
  unique_count : ℕ
  duplicate_pairs : List SimilarityResult
  duplicate_groups : List (List String)
  removed_items : List String
deriving DecidableEq, Repr

/-- `_extract_conversation_content`: normalize each message and join with
spaces. -/
def extract_conversation_content (config : DeduplicationConfig)
    (conv : Conversation) : String :=
  String.intercalate " "
    (conv.messages.map
      (fun m => normalize_text m config.case_sensitive config.ignore_punctuation))

/-- The dedup bucket key of a conversation. -/
def content_key (config : DeduplicationConfig) (conv : Conversation) : String :=
  create_content_hash (extract_conversation_content config conv)

/-- The minimum-length filter applied before grouping. -/
def valid_conversation (config : DeduplicationConfig) (conv : Conversation) : Bool :=
  config.min_conversation_length ≤ conv.messages.length

/-- `hash_to_conversations`: conversations of sufficient length, grouped by
content hash in insertion order. -/
def hash_groups (config : DeduplicationConfig)
    (conversations : List Conversation) : List (String × List Conversation) :=
  groupByKey (content_key config)
    (conversations.filter (valid_conversation config))

/-- The loop state of `deduplicate_conversations`: the four lists it builds
while iterating the hash groups. -/
structure DedupScan where
  unique : List Conversation
  pairs : List SimilarityResult
  groups : List (List String)
  removed : List String
deriving DecidableEq, Repr

/-- The per-group loop of `deduplicate_conversations`: in each group of size
greater than 1 the first conversation survives, the rest are removed, each
contributing one `SimilarityResult` against the survivor. -/
def dedup_scan : List (String × List Conversation) → DedupScan
  | [] => ⟨[], [], [], []⟩
  | (_, g) :: rest =>
    let r := dedup_scan rest
    if 1 < g.length then
      ⟨g.headI :: r.unique,
       (g.tail.map (fun c =>
          SimilarityResult.mk g.headI.id c.id 1 .CONTENT_HASH (some .EXACT_DUPLICATE)))
         ++ r.pairs,
       (g.map Conversation.id) :: r.groups,
       (g.tail.map Conversation.id) ++ r.removed⟩
    else
      ⟨g.headI :: r.unique, r.pairs, r.groups, r.removed⟩

/-- `ConversationDeduplicator.deduplicate_conversations`. -/
def ConversationDeduplicator.deduplicate_conversations
    (config : DeduplicationConfig) (conversations : List Conversation) :
    DeduplicationResult :=
  let scan := dedup_scan (hash_groups config conversations)
  { original_count := conversations.length
    duplicate_count := scan.removed.length
    unique_count := scan.unique.length
    duplicate_pairs := scan.pairs
    duplicate_groups := scan.groups
    removed_items := scan.removed }

/-- Module-level convenience `deduplicate_conversations`: run the
deduplicator, then keep the conversations whose id is not among the removed
ids. -/
def deduplicate_conversations (config : DeduplicationConfig)
    (conversations : List Conversation) :
    List Conversation × DeduplicationResult :=
  let result := ConversationDeduplicator.deduplicate_conversations config conversations
  (conversations.filter (fun c => decide (c.id ∉ result.removed_items)), result)

/-! ### Structure of `groupByKey` buckets -/

/-- The bucket of key `k` in an association list (empty when absent). -/
def bucketOf {κ α : Type} [DecidableEq κ] : List (κ × List α) → κ → List α
  | [], _ => []
  | (k', xs) :: rest, k => if k' = k then xs else bucketOf rest k

theorem bucketOf_insertGrouped {κ α : Type} [DecidableEq κ] (k k' : κ) (x : α)
    (g : List (κ × List α)) :
    bucketOf (insertGrouped k x g) k'
      = if k' = k then bucketOf g k ++ [x] else bucketOf g k' := by
  induction g with
  | nil =>
    by_cases h : k' = k
    · subst h; simp [insertGrouped, bucketOf]
    · have h2 : ¬ (k = k') := fun hh => h hh.symm
      simp [insertGrouped, bucketOf, h, h2]
  | cons q rest ih =>
    obtain ⟨a, l⟩ := q
    by_cases hak : a = k
    · subst hak
      by_cases h : k' = a
      · subst h; simp [insertGrouped, bucketOf]
      · have h2 : ¬ (a = k') := fun hh => h hh.symm
        simp [insertGrouped, bucketOf, h, h2]
    · by_cases h : a = k'
      · subst h
        have h2 : ¬ (a = k) := hak
        have h3 : ¬ (k = a) := fun hh => hak hh.symm
        simp [insertGrouped, bucketOf, h2, h3]
      · simp [insertGrouped, bucketOf, hak, h, ih]

theorem bucketOf_groupByKey_aux {κ α : Type} [DecidableEq κ] (key : α → κ) :
    ∀ (l : List α) (acc : List (κ × List α)) (k : κ),
      bucketOf (l.foldl (fun acc x => insertGrouped (key x) x acc) acc) k
        = bucketOf acc k ++ l.filter (fun x => decide (key x = k)) := by
  intro l
  induction l with
  | nil => intro acc k; simp
  | cons x xs ih =>
    intro acc k
    rw [List.foldl_cons, ih, bucketOf_insertGrouped, List.filter_cons]
    by_cases h : key x = k
    · rw [if_pos h.symm, h]
      simp
    · rw [if_neg (fun hh => h hh.symm)]
      simp [h]

/-- Each key's bucket is the in-order sublist of elements mapping to it. -/
theorem bucketOf_groupByKey {κ α : Type} [DecidableEq κ] (key : α → κ) (l : List α)
    (k : κ) :
    bucketOf (groupByKey key l) k = l.filter (fun x => decide (key x = k)) := by
  simpa [bucketOf] using bucketOf_groupByKey_aux key l [] k

theorem keys_insertGrouped {κ α : Type} [DecidableEq κ] (k : κ) (x : α)
    (g : List (κ × List α)) :
    (insertGrouped k x g).map Prod.fst
      = if k ∈ g.map Prod.fst then g.map Prod.fst else g.map Prod.fst ++ [k] := by
  induction g with
  | nil => simp [insertGrouped]
  | cons q rest ih =>
    obtain ⟨a, l⟩ := q
    by_cases hak : a = k
    · subst hak
      simp [insertGrouped]
    · have h3 : ¬ (k = a) := fun hh => hak hh.symm
      simp only [insertGrouped, if_neg hak, List.map_cons, ih, List.mem_cons]
      by_cases hk : k ∈ rest.map Prod.fst
      · simp [hk, h3]
      · simp [hk, h3]

theorem keys_nodup_insertGrouped {κ α : Type} [DecidableEq κ] (k : κ) (x : α)
    {g : List (κ × List α)} (hnd : (g.map Prod.fst).Nodup) :
    ((insertGrouped k x g).map Prod.fst).Nodup := by
  rw [keys_insertGrouped]
  by_cases hk : k ∈ g.map Prod.fst
  · simpa [hk] using hnd
  · simp [hk, List.nodup_append, hnd]

theorem mem_insertGrouped {κ α : Type} [DecidableEq κ] {k : κ} {x : α}
    {g : List (κ × List α)} (hnd : (g.map Prod.fst).Nodup) {p : κ × List α}
    (hp : p ∈ insertGrouped k x g) :
    (p.1 = k ∧ p.2 = bucketOf g k ++ [x]) ∨ (p.1 ≠ k ∧ p ∈ g) := by
  induction g with
  | nil =>
    simp only [insertGrouped, List.mem_singleton] at hp
    subst hp
    exact Or.inl ⟨rfl, by simp [bucketOf]⟩
  | cons q rest ih =>
    obtain ⟨a, l⟩ := q
    simp only [List.map_cons, List.nodup_cons] at hnd
    by_cases hak : a = k
    · subst hak
      simp only [insertGrouped, eq_self_iff_true, if_true, List.mem_cons] at hp
      rcases hp with hp1 | hp2
      · subst hp1
        exact Or.inl ⟨rfl, by simp [bucketOf]⟩
      · right
        refine ⟨?_, List.mem_cons_of_mem _ hp2⟩
        intro hcon
        exact hnd.1 (hcon ▸ List.mem_map_of_mem Prod.fst hp2)
    · simp only [insertGrouped, if_neg hak, List.mem_cons] at hp
      rcases hp with hp1 | hp2
      · subst hp1
        exact Or.inr ⟨hak, List.mem_cons_self _ _⟩
      · rcases ih hnd.2 hp2 with ⟨h1, h2⟩ | ⟨h1, h2⟩
        · left
          refine ⟨h1, ?_⟩
          rw [h2]
          simp [bucketOf, hak]
        · exact Or.inr ⟨h1, List.mem_cons_of_mem _ h2⟩

theorem groupByKey_nodup_bucket {κ α : Type} [DecidableEq κ] (key : α → κ)
    (l : List α) :
    ((groupByKey key l).map Prod.fst).Nodup
      ∧ ∀ p ∈ groupByKey key l, p.2 = bucketOf (groupByKey key l) p.1 := by
  suffices h : ∀ (acc : List (κ × List α)), (acc.map Prod.fst).Nodup →
      (∀ p ∈ acc, p.2 = bucketOf acc p.1) →
      (((l.foldl (fun acc x => insertGrouped (key x) x acc) acc).map Prod.fst).Nodup
        ∧ ∀ p ∈ l.foldl (fun acc x => insertGrouped (key x) x acc) acc,
            p.2 = bucketOf (l.foldl (fun acc x => insertGrouped (key x) x acc) acc) p.1) by
    exact h [] (by simp) (by simp)
  induction l with
  | nil => intro acc h1 h2; exact ⟨h1, h2⟩
  | cons x xs ih =>
    intro acc h1 h2
    refine ih (insertGrouped (key x) x acc) (keys_nodup_insertGrouped _ _ h1) ?_
    intro p hp
    rcases mem_insertGrouped h1 hp with ⟨hk, hv⟩ | ⟨hk, hpacc⟩
    · rw [hv, bucketOf_insertGrouped, if_pos hk]
    · rw [bucketOf_insertGrouped, if_neg hk]
      exact h2 p hpacc

/-- Every group of `groupByKey` is the in-order sublist of input elements
with that group's key. -/
theorem mem_groupByKey_snd {κ α : Type} [DecidableEq κ] (key : α → κ) (l : List α)
    {p : κ × List α} (hp : p ∈ groupByKey key l) :
    p.2 = l.filter (fun x => decide (key x = p.1)) := by
  rw [(groupByKey_nodup_bucket key l).2 p hp, bucketOf_groupByKey]

theorem bucketOf_mem {κ α : Type} [DecidableEq κ] {g : List (κ × List α)} {k : κ}
    (h : bucketOf g k ≠ []) : (k, bucketOf g k) ∈ g := by
  induction g with
  | nil => simp [bucketOf] at h
  | cons q rest ih =>
    obtain ⟨a, l⟩ := q
    by_cases hak : a = k
    · subst hak
      simp [bucketOf]
    · rw [bucketOf, if_neg hak] at h ⊢
      exact List.mem_cons_of_mem _ (ih h)

/-! ### Characterization of the dedup loop -/

theorem dedup_scan_unique (gs : List (String × List Conversation)) :
    (dedup_scan gs).unique = gs.map (fun g => g.2.headI) := by
  induction gs with
  | nil => rfl
  | cons g rest ih =>
    obtain ⟨k, grp⟩ := g
    by_cases h : 1 < grp.length
    · simp [dedup_scan, h, ih]
    · simp [dedup_scan, h, ih]

theorem dedup_scan_removed (gs : List (String × List Conversation)) :
    (dedup_scan gs).removed
      = gs.flatMap (fun g =>
          if 1 < g.2.length then g.2.tail.map Conversation.id else []) := by
  induction gs with
  | nil => rfl
  | cons g rest ih =>
    obtain ⟨k, grp⟩ := g
    by_cases h : 1 < grp.length
    · simp [dedup_scan, h, ih]
    · simp [dedup_scan, h, ih]

theorem dedup_scan_pairs (gs : List (String × List Conversation)) :
    (dedup_scan gs).pairs
      = gs.flatMap (fun g =>
          if 1 < g.2.length then
            g.2.tail.map (fun c =>
              SimilarityResult.mk g.2.headI.id c.id 1 .CONTENT_HASH
                (some .EXACT_DUPLICATE))
          else []) := by
  induction gs with
  | nil => rfl
  | cons g rest ih =>
    obtain ⟨k, grp⟩ := g
    by_cases h : 1 < grp.length
    · simp [dedup_scan, h, ih]
    · simp [dedup_scan, h, ih]

/-- C6: in every content-hash group of size greater than 1 the first record in
original input order is the sole survivor: the unique list keeps exactly the
head of every group, the removed ids are exactly the tails of the groups of
size greater than 1, each removed record contributes exactly one
`SimilarityResult` pairing it with the survivor at score 1.0 under
`CONTENT_HASH`, and each group is the in-order sublist of the (sufficiently
long) input conversations carrying that hash — so grouping and survivor
selection depend only on input order and content. -/
theorem dedup_content_hash_groups (config : DeduplicationConfig)
    (conversations : List Conversation) :
    (dedup_scan (hash_groups config conversations)).unique
        = (hash_groups config conversations).map (fun g => g.2.headI)
      ∧ (ConversationDeduplicator.deduplicate_conversations config
            conversations).removed_items
        = (hash_groups config conversations).flatMap
            (fun g => if 1 < g.2.length then g.2.tail.map Conversation.id else [])
      ∧ (ConversationDeduplicator.deduplicate_conversations config
            conversations).duplicate_pairs
        = (hash_groups config conversations).flatMap
            (fun g => if 1 < g.2.length then
                g.2.tail.map (fun c =>
                  SimilarityResult.mk g.2.headI.id c.id 1 .CONTENT_HASH
                    (some .EXACT_DUPLICATE))
              else [])
      ∧ ∀ g ∈ hash_groups config conversations,
          g.2 = (conversations.filter (valid_conversation config)).filter
              (fun c => decide (content_key config c = g.1)) := by
  refine ⟨dedup_scan_unique _, dedup_scan_removed _, dedup_scan_pairs _, ?_⟩
  intro g hg
  exact mem_groupByKey_snd _ _ hg

def dConvs : List Conversation :=
  [⟨"c1", ["hello", "world"]⟩, ⟨"c2", ["different", "text"]⟩,
   ⟨"c3", ["Hello,", "world!"]⟩]

theorem dedup_content_hash_groups_witness :
    [(⟨"c1", ["hello", "world"]⟩ : Conversation), ⟨"c3", ["Hello,", "world!"]⟩]
      = (dConvs.filter (valid_conversation {})).filter
          (fun c => decide (content_key {} c = "hello world")) := by
  have hgroups : hash_groups {} dConvs
      = [("hello world",
          [⟨"c1", ["hello", "world"]⟩, ⟨"c3", ["Hello,", "world!"]⟩]),
         ("different text", [⟨"c2", ["different", "text"]⟩])] := rfl
  have hmem : (("hello world",
      [(⟨"c1", ["hello", "world"]⟩ : Conversation), ⟨"c3", ["Hello,", "world!"]⟩])
        : String × List Conversation) ∈ hash_groups {} dConvs := by
    rw [hgroups]
    exact List.mem_cons_self _ _
  exact (dedup_content_hash_groups {} dConvs).2.2.2 _ hmem

/-- After a first deduplication run, every hash bucket of the surviving pool
contains at most one (sufficiently long) conversation. -/
theorem second_run_groups_small (config : DeduplicationConfig)
    (conversations : List Conversation) :
    ∀ g ∈ hash_groups config (deduplicate_conversations config conversations).1,
      g.2.length ≤ 1 := by
  intro g hg
  have hg2 := mem_groupByKey_snd (content_key config)
    (((deduplicate_conversations config conversations).1).filter
      (valid_conversation config)) hg
  have hu : (deduplicate_conversations config conversations).1
      = conversations.filter (fun c =>
          decide (c.id ∉ (ConversationDeduplicator.deduplicate_conversations config
            conversations).removed_items)) := rfl
  rw [hu, List.filter_filter, List.filter_filter] at hg2
  have hBbucket : bucketOf (hash_groups config conversations) g.1
      = conversations.filter (fun c =>
          decide (content_key config c = g.1) && valid_conversation config c) := by
    rw [show hash_groups config conversations
        = groupByKey (content_key config)
            (conversations.filter (valid_conversation config)) from rfl,
      bucketOf_groupByKey, List.filter_filter]
  have hg2' : g.2 = (conversations.filter (fun c =>
        decide (content_key config c = g.1) && valid_conversation config c)).filter
          (fun c =>
            decide (c.id ∉ (ConversationDeduplicator.deduplicate_conversations config
              conversations).removed_items)) := by
    rw [hg2, List.filter_filter]
    refine (List.filter_congr ?_).symm
    intro c _
    cases hx : decide (content_key config c = g.1) <;>
      cases hv : valid_conversation config c <;>
        cases hn : decide (c.id ∉ (ConversationDeduplicator.deduplicate_conversations
          config conversations).removed_items) <;> rfl
  rcases hBc : conversations.filter (fun c =>
      decide (content_key config c = g.1) && valid_conversation config c)
    with _ | ⟨b, t⟩
  · rw [hg2', hBc]
    simp
  · by_cases hT : t = []
    · subst hT
      rw [hg2', hBc]
      exact le_trans (List.length_filter_le _ _) (by simp)
    · have hb1 : 1 < (b :: t).length := by
        cases t with
        | nil => exact absurd rfl hT
        | cons c cs => simp
      have hBm : (g.1, b :: t) ∈ hash_groups config conversations := by
        have hne : bucketOf (hash_groups config conversations) g.1 ≠ [] := by
          rw [hBbucket, hBc]
          simp
        have hmem := bucketOf_mem hne
        rw [hBbucket, hBc] at hmem
        exact hmem
      have hrem : ∀ c ∈ t, c.id
          ∈ (ConversationDeduplicator.deduplicate_conversations config
              conversations).removed_items := by
        intro c hc
        rw [show (ConversationDeduplicator.deduplicate_conversations config
              conversations).removed_items
            = (dedup_scan (hash_groups config conversations)).removed from rfl,
          dedup_scan_removed]
        refine List.mem_flatMap.2 ⟨(g.1, b :: t), hBm, ?_⟩
        rw [if_pos hb1]
        exact List.mem_map_of_mem Conversation.id hc
      have ht0 : t.filter (fun c =>
          decide (c.id ∉ (ConversationDeduplicator.deduplicate_conversations config
            conversations).removed_items)) = [] := by
        refine List.filter_eq_nil_iff.2 ?_
        intro c hc
        simp [hrem c hc]
      rw [hg2', hBc, List.filter_cons, ht0]
      split <;> simp

/-- C9: deduplication is idempotent: a second run on the unique conversations
returned by a first run removes nothing — its removed-ids list is empty and
its duplicate count is 0. -/
theorem dedup_idempotent (config : DeduplicationConfig)
    (conversations : List Conversation) :
    (deduplicate_conversations config
        (deduplicate_conversations config conversations).1).2.removed_items = []
      ∧ (deduplicate_conversations config
          (deduplicate_conversations config conversations).1).2.duplicate_count = 0 := by
  have hsmall := second_run_groups_small config conversations
  have hnil : (hash_groups config
        (deduplicate_conversations config conversations).1).flatMap
      (fun g => if 1 < g.2.length then g.2.tail.map Conversation.id else []) = [] := by
    refine List.flatMap_eq_nil_iff.2 ?_
    intro g hg
    rw [if_neg (by have := hsmall g hg; omega)]
  constructor
  · rw [show (deduplicate_conversations config
          (deduplicate_conversations config conversations).1).2.removed_items
        = (dedup_scan (hash_groups config
            (deduplicate_conversations config conversations).1)).removed from rfl,
      dedup_scan_removed]
    exact hnil
  · rw [show (deduplicate_conversations config
          (deduplicate_conversations config conversations).1).2.duplicate_count
        = (dedup_scan (hash_groups config
            (deduplicate_conversations config conversations).1)).removed.length from rfl,
      dedup_scan_removed, hnil]
    rfl

/-! ### Validation and grading engine
(`dataset_validation_qa.py` and `dataset_validation_qa_system.py` contain two
copies of the same scoring logic; one embedding covers both.) -/

inductive ValidationSeverity
  | CRITICAL
  | HIGH
  | MEDIUM
  | LOW
  | INFO
deriving DecidableEq, Repr

structure ValidationIssue where
  severity : ValidationSeverity
  issue_type : String
  message : String
  item_id : Option String := none
  suggestion : Option String := none
deriving DecidableEq, Repr

structure QualityMetrics where
  overall_quality_score : ℚ := 0
  clinical_accuracy_score : ℚ := 0
  conversation_quality_score : ℚ := 0
  diversity_score : ℚ := 0
  content_integrity_score : ℚ := 0
deriving DecidableEq, Repr

structure ValidationConfig where
  min_overall_quality : ℚ := 7/10
  min_clinical_accuracy : ℚ := 3/4
  min_conversation_quality : ℚ := 13/20
  ratio_tolerance : ℚ := 1/20
  min_content_length : ℕ := 10
  min_dataset_size : ℕ := 100
  required_diversity_features : ℕ := 2
deriving DecidableEq, Repr

/-- `ValidationResult`: the fields read by score calculation and status
determination (reporting fields such as the dataset name and timestamp are
not modelled). -/
structure ValidationResult where
  validation_score : ℚ := 0
  quality_metrics : QualityMetrics := {}
  issues : List ValidationIssue := []
deriving DecidableEq, Repr

def ValidationResult.get_issues_by_severity (r : ValidationResult)
    (severity : ValidationSeverity) : List ValidationIssue :=
  r.issues.filter (fun issue => decide (issue.severity = severity))

/-- `ValidationResult.calculate_validation_score` (identical in both files):
weighted sum of the five aggregate metrics minus 0.2 per Critical and 0.1 per
High issue, floored at 0. -/
def ValidationResult.calculate_validation_score (r : ValidationResult) : ℚ :=
  let score :=
    (3/10) * r.quality_metrics.overall_quality_score
      + (1/4) * r.quality_metrics.clinical_accuracy_score
      + (1/5) * r.quality_metrics.conversation_quality_score
      + (3/20) * r.quality_metrics.diversity_score
      + (1/10) * r.quality_metrics.content_integrity_score
  let critical_issues := (r.get_issues_by_severity .CRITICAL).length
  let high_issues := (r.get_issues_by_severity .HIGH).length
  let penalty := (critical_issues : ℚ) * (1/5) + (high_issues : ℚ) * (1/10)
  max 0 (score - penalty)

/-- `DatasetValidationQASystem._determine_validation_status` (identical in
both files): early-return false on any Critical issue, then on substandard
overall quality, else compare the validation score against 0.6. -/
def DatasetValidationQASystem.determine_validation_status
    (config : ValidationConfig) (result : ValidationResult) : Bool :=
  if 0 < (result.get_issues_by_severity .CRITICAL).length then false
  else if result.quality_metrics.overall_quality_score
      < config.min_overall_quality then false
  else decide (result.validation_score ≥ 3/5)

def mean (scores : List ℚ) : ℚ := scores.sum / scores.length

/-- The aggregate-metric part of
`DatasetValidationQASystem._validate_quality_metrics` / `_extract_scores`:
each of the three per-item scores is collected only when present
(`is not None`), and each aggregate is the arithmetic mean of the collected
scores, left at the dataclass default 0 when no score is present.  The
diversity and content-integrity metrics are computed by other validators not
involved in this claim and stay at their defaults here. -/
def validate_quality_metrics (dataset : List DataItem) : QualityMetrics :=
  let quality_scores := dataset.filterMap DataItem.quality_score
  let clinical_scores := dataset.filterMap DataItem.clinical_accuracy
  let conversation_scores := dataset.filterMap DataItem.conversation_quality
  { overall_quality_score := if quality_scores = [] then 0 else mean quality_scores
    clinical_accuracy_score := if clinical_scores = [] then 0 else mean clinical_scores
    conversation_quality_score :=
      if conversation_scores = [] then 0 else mean conversation_scores
    diversity_score := 0
    content_integrity_score := 0 }

/-- C2: the validation score is the weighted sum of the five aggregate
metrics with weights 0.30, 0.25, 0.20, 0.15, 0.10, minus 0.2 per Critical
issue and 0.1 per High issue, floored at 0 and hence never negative. -/
theorem validation_score_formula (r : ValidationResult) :
    r.calculate_validation_score
      = max 0 ((3/10) * r.quality_metrics.overall_quality_score
          + (1/4) * r.quality_metrics.clinical_accuracy_score
          + (1/5) * r.quality_metrics.conversation_quality_score
          + (3/20) * r.quality_metrics.diversity_score
          + (1/10) * r.quality_metrics.content_integrity_score
          - ((1/5) * ((r.issues.filter
                (fun i => decide (i.severity = .CRITICAL))).length : ℚ)
             + (1/10) * ((r.issues.filter
                (fun i => decide (i.severity = .HIGH))).length : ℚ)))
      ∧ 0 ≤ r.calculate_validation_score := by
  constructor
  · unfold ValidationResult.calculate_validation_score
      ValidationResult.get_issues_by_severity
    ring_nf
  · exact le_max_left 0 _

/-- C3: `is_valid` holds iff there is no Critical issue, the overall quality
reaches `min_overall_quality`, and the validation score is at least 0.6; any
single failing condition yields false. -/
theorem validation_status_iff (config : ValidationConfig) (r : ValidationResult) :
    DatasetValidationQASystem.determine_validation_status config r = true
      ↔ (r.get_issues_by_severity .CRITICAL = []
          ∧ config.min_overall_quality ≤ r.quality_metrics.overall_quality_score
          ∧ (3/5 : ℚ) ≤ r.validation_score) := by
  unfold DatasetValidationQASystem.determine_validation_status
  by_cases h1 : 0 < (r.get_issues_by_severity .CRITICAL).length
  · rw [if_pos h1]
    simp only [Bool.false_eq_true, false_iff]
    rintro ⟨he, -, -⟩
    rw [he] at h1
    simp at h1
  · rw [if_neg h1]
    have hnil : r.get_issues_by_severity .CRITICAL = [] := by
      cases hl : r.get_issues_by_severity .CRITICAL with
      | nil => rfl
      | cons a l => rw [hl] at h1; simp at h1
    by_cases h2 : r.quality_metrics.overall_quality_score
        < config.min_overall_quality
    · rw [if_pos h2]
      simp only [Bool.false_eq_true, false_iff]
      rintro ⟨-, hq, -⟩
      exact absurd h2 (not_lt.2 hq)
    · rw [if_neg h2]
      simp only [decide_eq_true_eq]
      constructor
      · intro hs
        exact ⟨hnil, not_lt.1 h2, hs⟩
      · intro hcon
        exact hcon.2.2

/-- C5: each aggregate metric is the arithmetic mean over only the records
whose corresponding score is present; a record with an absent score is
excluded from the mean and leaves all three metrics unchanged. -/
theorem aggregate_metrics_mean (dataset : List DataItem) :
    (dataset.filterMap DataItem.quality_score ≠ [] →
      (validate_quality_metrics dataset).overall_quality_score
        = (dataset.filterMap DataItem.quality_score).sum
            / (dataset.filterMap DataItem.quality_score).length)
    ∧ (dataset.filterMap DataItem.clinical_accuracy ≠ [] →
      (validate_quality_metrics dataset).clinical_accuracy_score
        = (dataset.filterMap DataItem.clinical_accuracy).sum
            / (dataset.filterMap DataItem.clinical_accuracy).length)
    ∧ (dataset.filterMap DataItem.conversation_quality ≠ [] →
      (validate_quality_metrics dataset).conversation_quality_score
        = (dataset.filterMap DataItem.conversation_quality).sum
            / (dataset.filterMap DataItem.conversation_quality).length)
    ∧ ∀ (pre post : List DataItem) (item : DataItem),
        item.quality_score = none → item.clinical_accuracy = none →
        item.conversation_quality = none →
        validate_quality_metrics (pre ++ item :: post)
          = validate_quality_metrics (pre ++ post) := by
  refine ⟨?_, ?_, ?_, ?_⟩
  · intro h
    simp [validate_quality_metrics, mean, h]
  · intro h
    simp [validate_quality_metrics, mean, h]
  · intro h
    simp [validate_quality_metrics, mean, h]
  · intro pre post item hq hc hv
    unfold validate_quality_metrics
    simp [List.filterMap_append, List.filterMap_cons, hq, hc, hv]

def vItem1 : DataItem := ⟨"v1", "c", some "a", some (1/2), none, some (3/4)⟩

def vItemNone : DataItem := ⟨"v0", "c", some "a", none, none, none⟩

theorem aggregate_metrics_mean_witness :
    ((validate_quality_metrics [vItem1]).overall_quality_score
        = ([vItem1].filterMap DataItem.quality_score).sum
            / ([vItem1].filterMap DataItem.quality_score).length)
      ∧ validate_quality_metrics ([vItem1] ++ vItemNone :: [])
        = validate_quality_metrics ([vItem1] ++ []) := by
  constructor
  · exact (aggregate_metrics_mean [vItem1]).1 (by simp [vItem1])
  · exact (aggregate_metrics_mean [vItem1]).2.2.2 [vItem1] [] vItemNone rfl rfl rfl

/-! ### Production pipeline stage fallbacks (`production_dataset_generator.py`) -/

/-- `PipelineConfig`: the fields the modelled stage fallbacks read. -/
structure PipelineConfig where
  min_overall_quality : ℚ := 7/10
  target_ratios : List (String × ℚ) :=
    [("clinical_conversations", 3/10), ("psychology_knowledge", 1/4),
     ("voice_derived_data", 1/5), ("edge_cases", 3/20),
     ("general_mental_health", 1/10)]
deriving DecidableEq, Repr

/-- The fallback branch of `_apply_quality_filtering` (used when no
`QualityFilteringSystem` is attached): keep the items whose
`getattr(item, "quality_score", 0.8)` reaches `min_overall_quality`. -/
def apply_quality_filtering (config : PipelineConfig)
    (dataset : List DataItem) : List DataItem :=
  dataset.filter (fun item =>
    decide (config.min_overall_quality ≤ item.quality_score.getD (4/5)))

/-- The fallback branch of `_apply_deduplication`: keep the first item with
each content (`hash(str(content))` is modelled by the content itself, and the
`seen_content` set by a list). -/
def dedup_seen : List String → List DataItem → List DataItem
  | _, [] => []
  | seen, item :: rest =>
    if item.content ∈ seen then dedup_seen seen rest
    else item :: dedup_seen (item.content :: seen) rest

def apply_deduplication (dataset : List DataItem) : List DataItem :=
  dedup_seen [] dataset

/-- The `for i, item in enumerate(categorized_data)` loop of
`_extracted_from__apply_categorization_8`: a record lacking a `category`
attribute has `item.category` assigned in place, round-robin over the target
ratio keys. -/
def assign_categories (categories : List String) :
    ℕ → List DataItem → List DataItem
  | _, [] => []
  | i, item :: rest =>
    (if item.category = none then
        { item with category := categories.get? (i % categories.length) }
      else item)
      :: assign_categories categories (i + 1) rest

/-- The fallback branch of `_apply_categorization`: since
`categorized_data = dataset` aliases the input list and the loop mutates the
records, the result models the post-state of the input records.  With no
configured categories the Python loop raises `ZeroDivisionError` on
`i % len(categories)` and the surrounding `except` returns the dataset
unchanged, modelled by the `[]` branch. -/
def apply_categorization (config : PipelineConfig)
    (dataset : List DataItem) : List DataItem :=
  let categories := config.target_ratios.map Prod.fst
  if categories = [] then dataset
  else assign_categories categories 0 dataset

/-- C8 counterexample: the fallback categorization stage changes a record —
a record with no category comes out of the stage (that is, is left in the
input list) with `category` assigned, so its fields are not all unchanged. -/
theorem categorization_mutates_counterexample :
    ¬ (apply_categorization {} [⟨"r1", "x", none, none, none, none⟩]
        = [⟨"r1", "x", none, none, none, none⟩]) := by
  intro h
  have heval : apply_categorization ({} : PipelineConfig)
      [⟨"r1", "x", none, none, none, none⟩]
      = [⟨"r1", "x", some "clinical_conversations", none, none, none⟩] := rfl
  rw [heval] at h
  simp at h

theorem dedup_seen_sublist : ∀ (seen : List String) (dataset : List DataItem),
    (dedup_seen seen dataset).Sublist dataset := by
  intro seen dataset
  induction dataset generalizing seen with
  | nil => simp [dedup_seen]
  | cons item rest ih =>
    rw [dedup_seen]
    by_cases h : item.content ∈ seen
    · rw [if_pos h]
      exact (ih seen).cons item
    · rw [if_neg h]
      exact (ih (item.content :: seen)).cons₂ item

theorem assign_categories_id (categories : List String) :
    ∀ (i : ℕ) (dataset : List DataItem),
      (∀ item ∈ dataset, item.category ≠ none) →
      assign_categories categories i dataset = dataset := by
  intro i dataset
  induction dataset generalizing i with
  | nil => intro _; rfl
  | cons item rest ih =>
    intro h
    rw [assign_categories,
      if_neg (h item (List.mem_cons_self _ _)),
      ih (i + 1) (fun it hit => h it (List.mem_cons_of_mem _ hit))]

theorem assign_categories_only_category (categories : List String) :
    ∀ (i : ℕ) (dataset : List DataItem),
      (assign_categories categories i dataset).map
          (fun item => { item with category := none })
        = dataset.map (fun item => { item with category := none }) := by
  intro i dataset
  induction dataset generalizing i with
  | nil => rfl
  | cons item rest ih =>
    rw [assign_categories, List.map_cons, List.map_cons, ih (i + 1)]
    by_cases h : item.category = none
    · rw [if_pos h]
    · rw [if_neg h]

/-- C8 (amended): the quality-filtering and deduplication fallback stages
return subsequences of their input with each record unchanged, and the
categorization stage changes nothing but the `category` field — but the
categorization stage does mutate its input records: each record lacking a
`category` has `item.category` assigned in place (and the stage returns the
input list itself rather than a new sequence), while records that already
carry a category are left unchanged. -/
theorem stages_record_preservation :
    (∀ (config : PipelineConfig) (dataset : List DataItem),
        (apply_quality_filtering config dataset).Sublist dataset)
    ∧ (∀ dataset : List DataItem, (apply_deduplication dataset).Sublist dataset)
    ∧ (∀ (config : PipelineConfig) (dataset : List DataItem),
        (∀ item ∈ dataset, item.category ≠ none) →
        apply_categorization config dataset = dataset)
    ∧ (∀ (config : PipelineConfig) (dataset : List DataItem),
        (apply_categorization config dataset).map
            (fun item => { item with category := none })
          = dataset.map (fun item => { item with category := none })) := by
  refine ⟨?_, ?_, ?_, ?_⟩
  · intro config dataset
    exact List.filter_sublist dataset
  · intro dataset
    exact dedup_seen_sublist [] dataset
  · intro config dataset h
    show (if config.target_ratios.map Prod.fst = [] then dataset
        else assign_categories (config.target_ratios.map Prod.fst) 0 dataset)
      = dataset
    by_cases hc : config.target_ratios.map Prod.fst = []
    · rw [if_pos hc]
    · rw [if_neg hc]
      exact assign_categories_id _ 0 dataset h
  · intro config dataset
    show (if config.target_ratios.map Prod.fst = [] then dataset
        else assign_categories (config.target_ratios.map Prod.fst) 0 dataset).map
          (fun item => { item with category := none })
      = dataset.map (fun item => { item with category := none })
    by_cases hc : config.target_ratios.map Prod.fst = []
    · rw [if_pos hc]
    · rw [if_neg hc]
      exact assign_categories_only_category _ 0 dataset

theorem stages_record_preservation_witness :
    apply_categorization ({} : PipelineConfig)
        [⟨"r1", "x", some "a", none, none, none⟩]
      = [⟨"r1", "x", some "a", none, none, none⟩] :=
  stages_record_preservation.2.2.1 {} _ (by
    intro item hm
    rw [List.mem_singleton] at hm
    subst hm
    simp)

/-! ### Quality filter (spec-modelled) -/

/-- Modelled from the spec: the weighted quality filter
(`QualityFilteringSystem` from `quality_filtering_system.py`) is imported and
invoked by `production_dataset_generator.py`, but its source file is not in
the repository.  Following §4.3 of the specification: factor weights (default
language quality 0.25, coherence 0.30, authenticity 0.25, domain accuracy
0.20), critical factors with their own floors, an acceptance threshold
(default 0.70) and a review band below it (default 10 points = 0.10). -/
structure QualityFilterConfig where
  weights : List (String × ℚ) :=
    [("language_quality", 1/4), ("coherence", 3/10),
     ("authenticity", 1/4), ("domain_accuracy", 1/5)]
  critical_factors : List (String × ℚ) := [("language_quality", 2/5)]
  minimum_overall_score : ℚ := 7/10
  review_band : ℚ := 1/10
deriving DecidableEq, Repr

inductive FilterDecision
  | Accept
  | Reject
  | Review
deriving DecidableEq, Repr

/-- A record's per-factor scores, an absent factor being `none`. -/
def lookup_score (scores : List (String × ℚ)) (name : String) : Option ℚ :=
  (scores.find? (fun p => decide (p.1 = name))).map Prod.snd

/-- Modelled from the spec (§4.3): `combined_score = Σ weight_i * score_i`,
a missing individual score counting as 0 in the weighted sum — not excluded
from it. -/
def combined_score (config : QualityFilterConfig)
    (scores : List (String × ℚ)) : ℚ :=
  (config.weights.map (fun w => w.2 * (lookup_score scores w.1).getD 0)).sum

/-- Modelled from the spec (§4.3): Reject when a critical factor is below its
floor; else Accept on reaching the acceptance threshold; else Review within
the band below it; else Reject. -/
def filter_decision (config : QualityFilterConfig)
    (scores : List (String × ℚ)) : FilterDecision :=
  if config.critical_factors.any
      (fun f => decide ((lookup_score scores f.1).getD 0 < f.2)) then .Reject
  else if combined_score config scores ≥ config.minimum_overall_score then .Accept
  else if combined_score config scores
      ≥ config.minimum_overall_score - config.review_band then .Review
  else .Reject

/-- C4: a record whose individual quality scores are all missing has them
treated as 0 in the weighted combined score (not excluded), so its combined
score is 0 and, for any positive acceptance threshold, the filter does not
accept it — with the review floor positive as well it is rejected outright. -/
theorem missing_scores_zero_default (config : QualityFilterConfig)
    (scores : List (String × ℚ))
    (hmiss : ∀ w ∈ config.weights, lookup_score scores w.1 = none) :
    combined_score config scores = 0
      ∧ (0 < config.minimum_overall_score →
          filter_decision config scores ≠ .Accept)
      ∧ (0 < config.minimum_overall_score →
          0 < config.minimum_overall_score - config.review_band →
          filter_decision config scores = .Reject) := by
  have h0 : combined_score config scores = 0 := by
    refine List.sum_eq_zero ?_
    intro x hx
    rcases List.mem_map.1 hx with ⟨w, hw, rfl⟩
    rw [hmiss w hw]
    simp
  refine ⟨h0, ?_, ?_⟩
  · intro hmin
    unfold filter_decision
    split
    · intro hcon
      exact FilterDecision.noConfusion hcon
    · rw [if_neg (by rw [h0]; exact not_le.2 hmin)]
      split
      · intro hcon
        exact FilterDecision.noConfusion hcon
      · intro hcon
        exact FilterDecision.noConfusion hcon
  · intro hmin hband
    unfold filter_decision
    split
    · rfl
    · rw [if_neg (by rw [h0]; exact not_le.2 hmin),
        if_neg (by rw [h0]; exact not_le.2 hband)]

theorem missing_scores_zero_default_witness :
    combined_score {} [] = 0
      ∧ filter_decision {} [] ≠ .Accept
      ∧ filter_decision {} [] = .Reject := by
  have e1 : ({} : QualityFilterConfig).minimum_overall_score = 7/10 := rfl
  have e2 : ({} : QualityFilterConfig).review_band = 1/10 := rfl
  have h := missing_scores_zero_default {} [] (fun w _ => rfl)
  exact ⟨h.1, h.2.1 (by rw [e1]; norm_num),
    h.2.2 (by rw [e1]; norm_num) (by rw [e1, e2]; norm_num)⟩

end Curation
